import Mathlib

set_option autoImplicit false

deriving instance DecidableEq for Except

namespace LinGoPipe

/-! Association-list maps.  Go maps with string keys are modelled as
association lists with unique keys maintained by overwriting puts. -/

/-- Lookup of a key in an association list, first entry wins. -/
def assocGet {α : Type} : List (String × α) → String → Option α
  | [], _ => none
  | (k, v) :: rest, n => if k = n then some v else assocGet rest n

/-- Insert-or-overwrite of a key in an association list: replaces the first
entry carrying the key in place, appends at the end otherwise. -/
def assocPut {α : Type} : List (String × α) → String → α → List (String × α)
  | [], n, v => [(n, v)]
  | (k, w) :: rest, n, v =>
    if k = n then (n, v) :: rest else (k, w) :: assocPut rest n v

/-! Memory Store.  Modelled from the spec: a mutable ordered key/value mapping
from step identifier to step result, where each stored entry is a small field
map minimally containing an `output` field holding the raw model text.  The
store implementation itself is not under the analysed sources; the contract is
`Put` (store or overwrite), `Get` (value plus presence), `All` (full dump). -/

/-- Modelled from the spec: one Memory Store entry, a flat field map
(`output` plus the flattened decoded fields when the decoded value is
record-shaped). -/
abbrev Entry := List (String × String)

/-- Modelled from the spec: the Memory Store, an ordered mapping from step
name to entry with unique keys. -/
abbrev Store := List (String × Entry)

/-- Modelled from the spec: `Put(key, value)` stores or overwrites; no error
conditions. -/
def Store.put (s : Store) (k : String) (v : Entry) : Store := assocPut s k v

/-- Modelled from the spec: `Get(key)` returns the stored value and a
presence flag (here an `Option`); does not fail when absent. -/
def Store.get (s : Store) (k : String) : Option Entry := assocGet s k

/-- Modelled from the spec: `All()` returns the mapping of all entries for
external inspection. -/
def Store.all (s : Store) : Store := s

/-! Error taxonomy, modelled from the spec's section 7. -/

/-- Modelled from the spec: resolution failure cases of the Prompt
Resolver. -/
inductive ResolveErr where
  | missingBinding
deriving DecidableEq, Repr

/-- Modelled from the spec: decode failure cases of the Decoder contract. -/
inductive DecodeErr where
  | malformed
  | schemaMismatch
  | noMatch
  | invalidPattern
deriving DecidableEq, Repr

/-- Modelled from the spec: the error taxonomy of a pipeline run — resolver
failures, backend failures wrapped with the step name, decode failures, and
configuration errors (for example zero steps in a pipeline). -/
inductive PipeErr where
  | resolve (e : ResolveErr)
  | backend (stepName : String) (msg : String)
  | decode (e : DecodeErr)
  | config
deriving DecidableEq, Repr

/-! Prompt Resolver.  Modelled from the spec: the template renderer is given a
template (its concrete expression syntax is assumed by the spec, so templates
are embedded as parsed part lists), step-local static bindings, and the full
Memory Store; qualified references `step.<field>` resolve by looking up the
step name in the store and then the field inside that entry, unqualified
references resolve against the step-local bindings only, and a missing
reference is a `ResolveError{MissingBinding}`. -/

/-- Modelled from the spec: one template part — literal text, an unqualified
reference, or a qualified `step.<field>` reference. -/
inductive TemplatePart where
  | lit (text : String)
  | ref (name : String)
  | qref (stepName field : String)

/-- Modelled from the spec: a template is a sequence of parts. -/
abbrev Template := List TemplatePart

/-- Modelled from the spec: step-local static key/value bindings supplied at
step construction. -/
abbrev Bindings := List (String × String)

/-- Modelled from the spec: resolution of a single template reference against
the Memory Store (qualified references) or the step-local bindings
(unqualified references); a missing reference fails with
`ResolveError{MissingBinding}`. -/
def resolvePart (store : Store) (bindings : Bindings) : TemplatePart → Except PipeErr String
  | .lit t => .ok t
  | .ref n =>
    match assocGet bindings n with
    | some v => .ok v
    | none => .error (.resolve .missingBinding)
  | .qref s f =>
    match Store.get store s with
    | some entry =>
      match assocGet entry f with
      | some v => .ok v
      | none => .error (.resolve .missingBinding)
    | none => .error (.resolve .missingBinding)

/-- Modelled from the spec: rendering a template concatenates the resolved
parts, failing on the first unresolved reference. -/
def render (store : Store) (bindings : Bindings) : Template → Except PipeErr String
  | [] => .ok ""
  | p :: rest =>
    match resolvePart store bindings p with
    | .error e => .error e
    | .ok s =>
      match render store bindings rest with
      | .error e => .error e
      | .ok t => .ok (s ++ t)

/-! Decoder.  Modelled from the spec: a polymorphic contract consuming raw
textual model output into a destination value, with three strategies —
passthrough (never fails), structured decoding (the raw text is assumed to
encode a record; modelled as flat JSON-style records with string fields,
destination fields bound by case-sensitive name match), and pattern capture
(first match only, ordered capture groups). -/

/-- Double-quote character, named to keep parser code free of quote-heavy
literals. -/
def dquote : Char := Char.ofNat 34

/-- Opening brace character of the structured record format. -/
def lbrace : Char := Char.ofNat 123

/-- Closing brace character of the structured record format. -/
def rbrace : Char := Char.ofNat 125

/-- Whitespace characters accepted between tokens of the structured record
format. -/
def isJsonWs (c : Char) : Bool := c = ' ' || c = '\t' || c = '\n' || c = '\r'

/-- Drop leading whitespace of the structured record format. -/
def skipWs (cs : List Char) : List Char := cs.dropWhile isJsonWs

/-- Scan the body of a double-quoted string up to its closing quote,
returning the content and the remaining input. -/
def scanString : List Char → Option (List Char × List Char)
  | [] => none
  | c :: rest =>
    if c = dquote then some ([], rest)
    else
      match scanString rest with
      | some (s, r) => some (c :: s, r)
      | none => none

/-- Parse one `"key":"value"` pair of the structured record format. -/
def parsePair (cs : List Char) : Option ((String × String) × List Char) :=
  match skipWs cs with
  | c :: cs1 =>
    if c = dquote then
      match scanString cs1 with
      | some (k, cs2) =>
        match skipWs cs2 with
        | c2 :: cs3 =>
          if c2 = ':' then
            match skipWs cs3 with
            | c3 :: cs4 =>
              if c3 = dquote then
                match scanString cs4 with
                | some (v, cs5) => some ((String.mk k, String.mk v), cs5)
                | none => none
              else none
            | [] => none
          else none
        | [] => none
      | none => none
    else none
  | [] => none

/-- Parse a comma-separated sequence of pairs of the structured record
format; the fuel bounds the number of pairs. -/
def parsePairs : Nat → List Char → Option (List (String × String) × List Char)
  | 0, _ => none
  | fuel + 1, cs =>
    match parsePair cs with
    | none => none
    | some (kv, cs1) =>
      match skipWs cs1 with
      | c :: cs2 =>
        if c = ',' then
          match parsePairs fuel cs2 with
          | some (kvs, cs3) => some (kv :: kvs, cs3)
          | none => none
        else some ([kv], c :: cs2)
      | [] => some ([kv], [])

/-- Modelled from the spec: parse raw text as the self-describing structured
record format (a braced, comma-separated list of double-quoted key/value
pairs); `none` means the text is malformed. -/
def parseJsonRecord (s : String) : Option (List (String × String)) :=
  match skipWs s.data with
  | c :: cs1 =>
    if c = lbrace then
      match skipWs cs1 with
      | c2 :: cs2 =>
        if c2 = rbrace then
          if (skipWs cs2).isEmpty then some [] else none
        else
          match parsePairs (cs1.length + 1) (c2 :: cs2) with
          | some (kvs, rest) =>
            match skipWs rest with
            | c3 :: cs3 =>
              if c3 = rbrace then
                if (skipWs cs3).isEmpty then some kvs else none
              else none
            | [] => none
          | none => none
      | [] => none
    else none
  | [] => none

/-- Modelled from the spec: bind each destination field from the parsed
record by case-sensitive name match; `none` means a required destination
field has no corresponding source field. -/
def bindFields (r : List (String × String)) : List String → Option (List (String × String))
  | [] => some []
  | f :: fs =>
    match assocGet r f with
    | some v =>
      match bindFields r fs with
      | some kvs => some ((f, v) :: kvs)
      | none => none
    | none => none

/-- Word character class of the capture-pattern language. -/
def isWordChar (c : Char) : Bool := c.isAlphanum || c = '_'

/-- Whitespace character class of the capture-pattern language. -/
def isSpaceChar (c : Char) : Bool :=
  c = ' ' || c = '\t' || c = '\n' || c = Char.ofNat 12 || c = '\r'

/-- Any-character class of the capture-pattern language (anything but a
newline). -/
def isDotChar (c : Char) : Bool := c != '\n'

/-- Modelled from the spec: one atom of a capture pattern — exactly one
character of a class, one-or-more (greedy), or zero-or-more (greedy). -/
inductive Atom where
  | one (p : Char → Bool)
  | plus (p : Char → Bool)
  | star (p : Char → Bool)

/-- Modelled from the spec: a pattern item, an atom optionally wrapped in a
capture group. -/
structure PatItem where
  grouped : Bool
  atom : Atom

/-- Modelled from the spec: a capture pattern is a sequence of items. -/
abbrev Pattern := List PatItem

/-- Number of capture groups of a pattern. -/
def countGroups (p : Pattern) : Nat := (p.filter (fun it => it.grouped)).length

/-- Greedy backtracking over the number of characters consumed by a repeated
atom: try `k` characters first, then shorter prefixes down to `lo`. -/
def tryDrops (f : List Char → Option (List String)) (g : Bool) (cs : List Char) (lo : Nat) :
    Nat → Option (List String)
  | 0 =>
    match f cs with
    | some caps => some (if g then "" :: caps else caps)
    | none => none
  | k2 + 1 =>
    match f (cs.drop (k2 + 1)) with
    | some caps => some (if g then String.mk (cs.take (k2 + 1)) :: caps else caps)
    | none => if k2 + 1 ≤ lo then none else tryDrops f g cs lo k2

/-- Match a pattern against a prefix of the input, returning the captured
group substrings in group order (leftmost-first, greedy with
backtracking). -/
def matchItems : Pattern → List Char → Option (List String)
  | [], _ => some []
  | it :: rest, cs =>
    match it.atom with
    | .one p =>
      match cs with
      | [] => none
      | c :: cs2 =>
        if p c then
          match matchItems rest cs2 with
          | some caps => some (if it.grouped then String.mk [c] :: caps else caps)
          | none => none
        else none
    | .plus p =>
      let n := (cs.takeWhile p).length
      if n = 0 then none else tryDrops (fun cs2 => matchItems rest cs2) it.grouped cs 1 n
    | .star p =>
      let n := (cs.takeWhile p).length
      tryDrops (fun cs2 => matchItems rest cs2) it.grouped cs 0 n

/-- Find the leftmost match of a pattern in the input: try each start
position from the left, first success wins. -/
def findFirst (p : Pattern) : List Char → Option (List String)
  | [] => matchItems p []
  | c :: cs2 =>
    match matchItems p (c :: cs2) with
    | some caps => some caps
    | none => findFirst p cs2

/-- Modelled from the spec: a decoded destination value — the raw text
(passthrough), a named-field record (structured decoding), or an ordered
sequence of captured substrings (pattern capture). -/
inductive Value where
  | str (s : String)
  | record (fields : List (String × String))
  | strs (xs : List String)
deriving DecidableEq, Repr

/-- Modelled from the spec: the three decoder strategies; the structured
decoder carries the destination shape's field names, the pattern-capture
decoder its pattern. -/
inductive Decoder where
  | dflt
  | json (fields : List String)
  | regex (p : Pattern)

/-- Modelled from the spec: pattern-capture decoder construction — a pattern
with zero capture groups is an input-configuration failure
`DecodeError{InvalidPattern}` raised at construction time. -/
def NewRegExDecoder (p : Pattern) : Except DecodeErr Decoder :=
  if countGroups p = 0 then .error .invalidPattern else .ok (.regex p)

/-- Modelled from the spec: run a decoder on one raw text — passthrough
never fails; structured decoding fails `Malformed` on unparsable text and
`SchemaMismatch` on a missing destination field; pattern capture returns the
first match's ordered captures and fails `NoMatch` otherwise. -/
def decode : Decoder → String → Except DecodeErr Value
  | .dflt, raw => .ok (.str raw)
  | .json fields, raw =>
    match parseJsonRecord raw with
    | none => .error .malformed
    | some r =>
      match bindFields r fields with
      | some kvs => .ok (.record kvs)
      | none => .error .schemaMismatch
  | .regex p, raw =>
    match findFirst p raw.data with
    | some caps => .ok (.strs caps)
    | none => .error .noMatch

/-- The pattern of the example pipeline's third step: one word group, a
space, a second word group, a space, and a rest-of-line group. -/
def wordsRestPattern : Pattern :=
  [⟨true, .plus isWordChar⟩, ⟨false, .one isSpaceChar⟩,
   ⟨true, .plus isWordChar⟩, ⟨false, .one isSpaceChar⟩,
   ⟨true, .star isDotChar⟩]

/-! Step and Pipeline.  Modelled from the spec: a Step binds a name, a model
backend, an invocation mode, a prompt template with step-local bindings, and
a decoder; it renders its prompt from the shared Memory Store, invokes the
backend, decodes the raw output, and writes `output` plus the decoded fields
under its name.  The Pipeline executes its steps strictly in order, aborts
on the first failure without rolling the store back, and returns the last
step's decoded output; the model backend is an opaque collaborator, embedded
as a function from rendered prompt and mode to raw text or an error. -/

/-- Modelled from the spec: the opaque invocation mode, forwarded to the
backend and never interpreted. -/
inductive LlmMode where
  | completion
  | chat
deriving DecidableEq, Repr

/-- Modelled from the spec: the model backend collaborator —
`Invoke(renderedPrompt, mode)` returns raw text or fails. -/
abbrev Llm := String → LlmMode → Except String String

/-- Modelled from the spec: one pipeline step. -/
structure Step where
  name : String
  llm : Llm
  mode : LlmMode
  template : Template
  bindings : Bindings
  decoder : Decoder

/-- Modelled from the spec: the Memory Store entry written by a step — the
raw text under `output`, plus the flattened decoded fields when the decoded
value is record-shaped. -/
def entryOf (raw : String) : Value → Entry
  | .record kvs => ("output", raw) :: kvs
  | _ => [("output", raw)]

/-- Modelled from the spec: one step execution — resolve the prompt, invoke
the backend (failures wrapped and tagged with the step name), decode the raw
output, and store the result under the step's name (a write that cannot
fail). -/
def runStep (store : Store) (step : Step) : Except PipeErr (Value × Store) :=
  match render store step.bindings step.template with
  | .error e => .error e
  | .ok prompt =>
    match step.llm prompt step.mode with
    | .error msg => .error (.backend step.name msg)
    | .ok raw =>
      match decode step.decoder raw with
      | .error e => .error (.decode e)
      | .ok v => .ok (v, store.put step.name (entryOf raw v))

/-- Modelled from the spec: strictly sequential execution — abort on the
first failing step returning its error and the store as written so far, and
on success of all steps return the last step's decoded output; a pipeline
with zero steps is a configuration error. -/
def runPipeline (store : Store) : List Step → Store × Except PipeErr Value
  | [] => (store, .error .config)
  | step :: rest =>
    match runStep store step with
    | .error e => (store, .error e)
    | .ok (v, s2) =>
      match rest with
      | [] => (s2, .ok v)
      | _ :: _ => runPipeline s2 rest

/-- Modelled from the spec: a non-empty initial input is bound into the
rendering context of the first step only, under the documented key
`input`. -/
def bindInput : Option String → List Step → List Step
  | none, steps => steps
  | some _, [] => []
  | some i, first :: rest =>
    { first with bindings := ("input", i) :: first.bindings } :: rest

/-- Modelled from the spec: `Run(initialInput)` over a pipeline's ordered
steps and its shared Memory Store. -/
def Run (steps : List Step) (store : Store) (input : Option String) :
    Store × Except PipeErr Value :=
  runPipeline store (bindInput input steps)

/-- Execution of a prefix of steps where every step is required to succeed,
returning the resulting store. -/
def runLeading (store : Store) : List Step → Option Store
  | [] => some store
  | step :: rest =>
    match runStep store step with
    | .ok (_, s2) => runLeading s2 rest
    | .error _ => none

/-- Boolean success test for `Except`. -/
def okB {ε α : Type} : Except ε α → Bool
  | .ok _ => true
  | .error _ => false

/-! Concrete three-step example pipeline, mirroring the example program:
step 1 passthrough, step 2 structured decoding into a `First`/`Second`
destination, step 3 pattern capture, with deterministic canned backends. -/

/-- Canned backend of the example's first and third step shape: fixed
text. -/
def exLlm1 : Llm := fun _ _ => .ok "alpha beta gamma"

/-- Canned backend returning a structured record text. -/
def exLlm2 : Llm := fun _ _ => .ok "\x7b\"First\":\"one\",\"Second\":\"two\"\x7d"

/-- Canned backend returning the pattern-capture input text. -/
def exLlm3 : Llm := fun _ _ => .ok "hello world foo bar"

/-- Example step 1: literal prompt, passthrough decoder. -/
def exStep1 : Step :=
  { name := "step1", llm := exLlm1, mode := .completion,
    template := [.lit "Hello how are you?"], bindings := [], decoder := .dflt }

/-- Example step 2: references step 1's stored output and a step-local
binding, structured decoder into fields `First` and `Second`. -/
def exStep2 : Step :=
  { name := "step2", llm := exLlm2, mode := .completion,
    template := [.lit "Your message ", .qref "step1" "output", .lit " is noted, ",
                 .ref "value"],
    bindings := [("value", "thanks")], decoder := .json ["First", "Second"] }

/-- Example step 3: references step 2's decoded fields and step 1's output,
pattern-capture decoder. -/
def exStep3 : Step :=
  { name := "step3", llm := exLlm3, mode := .completion,
    template := [.qref "step2" "First", .lit "/", .qref "step2" "Second",
                 .lit " and ", .qref "step1" "output"],
    bindings := [], decoder := .regex wordsRestPattern }

/-- The example pipeline's steps in order. -/
def exSteps : List Step := [exStep1, exStep2, exStep3]

/-- The Memory Store contents after a successful run of the example
pipeline from an empty store. -/
def exFinalStore : Store :=
  [("step1", [("output", "alpha beta gamma")]),
   ("step2", [("output", "\x7b\"First\":\"one\",\"Second\":\"two\"\x7d"),
              ("First", "one"), ("Second", "two")]),
   ("step3", [("output", "hello world foo bar")])]

/-- A step whose template references an undefined name. -/
def badRefStep : Step :=
  { name := "bad", llm := exLlm1, mode := .completion,
    template := [.ref "missing"], bindings := [], decoder := .dflt }

/-- A step whose backend fails. -/
def failLlmStep : Step :=
  { name := "boom", llm := fun _ _ => .error "backend down", mode := .completion,
    template := [.lit "hi"], bindings := [], decoder := .dflt }

/-! OpenAI model backend, translated from the source's `Generate`: the
collaborators (semantic cache, observer, chat-completion endpoint) are
embedded as oracle functions inside the instance, and the control flow of
`Generate` — nil-thread short circuit, cache lookup with hit/miss/failure,
observer span, model invocation, observer end, cache write — is translated
with an explicit event trace recording each collaborator invocation. -/

/-- A conversation thread (`*thread.Thread`); its message payload is
abstracted. -/
structure Thread where
  messages : List String

/-- Observable collaborator invocations of one `Generate` call. -/
inductive GenEvent where
  | cacheLookup
  | observerStart
  | observerEnd
  | modelInvoke
  | cacheWrite
deriving DecidableEq, Repr

/-- Outcome of the `getCache` helper: a hit (with the thread extended by the
cached answer), the sentinel miss, or a propagated failure. -/
inductive CacheOutcome where
  | hit (t2 : Thread)
  | miss
  | failure (msg : String)

/-- The OpenAI backend instance: `cache` is the optional semantic cache
lookup, `cacheSet` the cache write, `observer` the optional span/generation
observer pair, `backend` the chat-completion call (stream and non-stream
collapse to one oracle) returning the extended thread. -/
structure OpenAIModel where
  cache : Option (Thread → CacheOutcome)
  cacheSet : Thread → Except String Unit
  observer : Option ((Thread → Except String Unit) × (Thread → Except String Unit))
  backend : Thread → Except String Thread

/-- Tail of `Generate` after the model reply: the cache write performed when
a cache is configured. -/
def genFinish (o : OpenAIModel) (t2 : Thread) (evs : List GenEvent) :
    Except String Unit × Option Thread × List GenEvent :=
  match o.cache with
  | none => (.ok (), some t2, evs)
  | some _ =>
    match o.cacheSet t2 with
    | .error msg => (.error msg, some t2, evs ++ [.cacheWrite])
    | .ok _ => (.ok (), some t2, evs ++ [.cacheWrite])

/-- Observer end call of `Generate`, performed when an observer is
configured. -/
def genObserveEnd (o : OpenAIModel) (t2 : Thread) (evs : List GenEvent) :
    Except String Unit × Option Thread × List GenEvent :=
  match o.observer with
  | none => genFinish o t2 evs
  | some ob =>
    match ob.2 t2 with
    | .error msg => (.error msg, some t2, evs ++ [.observerEnd])
    | .ok _ => genFinish o t2 (evs ++ [.observerEnd])

/-- Model invocation of `Generate` (the stream/non-stream branch). -/
def genInvoke (o : OpenAIModel) (t : Thread) (evs : List GenEvent) :
    Except String Unit × Option Thread × List GenEvent :=
  match o.backend t with
  | .error msg => (.error msg, some t, evs ++ [.modelInvoke])
  | .ok t2 => genObserveEnd o t2 (evs ++ [.modelInvoke])

/-- Observer start call of `Generate`, performed when an observer is
configured. -/
def genObserveStart (o : OpenAIModel) (t : Thread) (evs : List GenEvent) :
    Except String Unit × Option Thread × List GenEvent :=
  match o.observer with
  | none => genInvoke o t evs
  | some ob =>
    match ob.1 t with
    | .error msg => (.error msg, some t, evs ++ [.observerStart])
    | .ok _ => genInvoke o t (evs ++ [.observerStart])

/-- Translated from the source's `Generate`: a nil thread returns a nil
error at once; otherwise the optional cache is consulted (returning on a hit
or a non-miss failure), then the model is invoked under the optional
observer span, and the answer is written back to the cache. -/
def Generate (o : OpenAIModel) :
    Option Thread → Except String Unit × Option Thread × List GenEvent
  | none => (.ok (), none, [])
  | some t =>
    match o.cache with
    | some cacheGet =>
      match cacheGet t with
      | .hit t2 => (.ok (), some t2, [.cacheLookup])
      | .failure msg => (.error msg, some t, [.cacheLookup])
      | .miss => genObserveStart o t [.cacheLookup]
    | none => genObserveStart o t []

/-! Semantic cache, translated from the source's `Cache.Get`,
`Cache.extractResults`: the embedder and the vector index are oracle
collaborators; similarity scores are embedded as rationals (only compared,
never computed on). -/

/-- One vector-index search result: a score and a metadata map. -/
structure SearchResult where
  score : ℚ
  metadata : List (String × String)

/-- The cached answers plus the query embedding (`cache.Result`). -/
structure CacheResult where
  answer : List String
  embedding : List ℚ
deriving DecidableEq, Repr

/-- Error outcomes of `Cache.Get`: a propagated collaborator error or the
sentinel `ErrCacheMiss`. -/
inductive CacheErr where
  | err (msg : String)
  | cacheMiss
deriving DecidableEq, Repr

/-- The reserved metadata key carrying a cached answer. -/
def cacheAnswerMetadataKey : String := "cache-answer"

/-- The `Cache` instance: `embed` is the embedder collaborator on one query
text, `search` the index collaborator given the embedding and the topK
option. -/
structure Cache where
  embed : String → Except String (List ℚ)
  search : List ℚ → Nat → Except String (List SearchResult)
  topK : Nat
  scoreThreshold : ℚ

/-- Translated from `Cache.extractResults`: collect, in order, the answers
of results scoring strictly above the threshold that carry the cache-answer
metadata key, skipping the rest; the hit flag is non-emptiness of the
collection. -/
def extractResults (c : Cache) (results : List SearchResult) : List String × Bool :=
  let output := results.foldl
    (fun acc r =>
      if c.scoreThreshold < r.score then
        match assocGet r.metadata cacheAnswerMetadataKey with
        | some ans => acc ++ [ans]
        | none => acc
      else acc) []
  (output, decide (0 < output.length))

/-- Translated from `Cache.Get`: embed the query, search the index with the
configured topK, and return the extracted answers on a hit or `ErrCacheMiss`
otherwise; embedder and index errors are propagated as-is. -/
def Cache.Get (c : Cache) (query : String) : Except CacheErr CacheResult :=
  match c.embed query with
  | .error msg => .error (.err msg)
  | .ok embedding =>
    match c.search embedding c.topK with
    | .error msg => .error (.err msg)
    | .ok results =>
      let er := extractResults c results
      if er.2 then .ok ⟨er.1, embedding⟩ else .error .cacheMiss

/-! Text loader, translated from the source's `TextLoader.Load` and
`TextLoader.validate`; the filesystem is an oracle collaborator. -/

/-- A loaded document: content plus metadata map. -/
structure Document where
  content : String
  metadata : List (String × String)

/-- Filesystem collaborator: `stat` returns whether the path exists and
whether it is a directory, `readFile` the contents when readable. -/
structure FS where
  stat : String → Option Bool
  readFile : String → Option String

/-- Error outcomes of `TextLoader.Load` (all tagged as internal errors in
the source). -/
inductive LoadErr where
  | reservedKey
  | statFailed
  | isDirectory
  | readFailed
deriving DecidableEq, Repr

/-- The reserved metadata key bound to the loader's filename. -/
def SourceMetadataKey : String := "source"

/-- The `TextLoader` instance: filename, caller-supplied metadata (a Go nil
map is `none`), and the optional text splitter collaborator. -/
structure TextLoader where
  filename : String
  metadata : Option (List (String × String))
  textSplitter : Option (List Document → List Document)

/-- Translated from `TextLoader.validate`: nil metadata becomes an empty
map, a caller-supplied `source` key is rejected as reserved, the loader's
filename is bound under `source`, and the file must exist and not be a
directory.  Returns the resulting metadata (the source mutates the receiver
in place). -/
def TextLoader.validate (t : TextLoader) (fs : FS) : Except LoadErr (List (String × String)) :=
  match (match t.metadata with
         | none => Except.ok []
         | some m =>
           if (assocGet m SourceMetadataKey).isSome then Except.error LoadErr.reservedKey
           else Except.ok m : Except LoadErr (List (String × String))) with
  | .error e => .error e
  | .ok m =>
    match fs.stat t.filename with
    | none => .error .statFailed
    | some isDir =>
      if isDir then .error .isDirectory
      else .ok (assocPut m SourceMetadataKey t.filename)

/-- Translated from `TextLoader.Load`: validate, read the file, produce one
document carrying the validated metadata, and pass the documents through the
text splitter when one is configured. -/
def TextLoader.Load (t : TextLoader) (fs : FS) : Except LoadErr (List Document) :=
  match t.validate fs with
  | .error e => .error e
  | .ok m =>
    match fs.readFile t.filename with
    | none => .error .readFailed
    | some text =>
      match t.textSplitter with
      | some splitDocs => .ok (splitDocs [⟨text, m⟩])
      | none => .ok [⟨text, m⟩]

/-- Concrete search results for exercising the cache: one result below the
score threshold carrying the answer key, one above it without the key. -/
def exResults : List SearchResult :=
  [⟨1/2, [("cache-answer", "cached")]⟩, ⟨95/100, []⟩]

/-- A concrete cache instance over canned embedder and index oracles. -/
def exCache : Cache :=
  { embed := fun _ => .ok [1], search := fun _ _ => .ok exResults,
    topK := 1, scoreThreshold := 9/10 }

/-- A concrete filesystem oracle with one readable regular file. -/
def exFS : FS :=
  { stat := fun p => if p = "notes.txt" then some false else none,
    readFile := fun p => if p = "notes.txt" then some "body" else none }

/-- A loader whose caller metadata already carries the reserved `source`
key. -/
def exLoaderReserved : TextLoader :=
  { filename := "notes.txt", metadata := some [("source", "elsewhere")],
    textSplitter := none }

/-- A loader with nil caller metadata and no splitter. -/
def exLoaderPlain : TextLoader :=
  { filename := "notes.txt", metadata := none, textSplitter := none }

/-! Helper lemmas. -/

theorem assocGet_assocPut_self {α : Type} (l : List (String × α)) (n : String) (v : α) :
    assocGet (assocPut l n v) n = some v := by
  induction l with
  | nil => simp [assocGet, assocPut]
  | cons hd tl ih =>
    obtain ⟨k, w⟩ := hd
    by_cases h : k = n
    · simp [assocGet, assocPut, h]
    · simp [assocGet, assocPut, h, ih]

theorem assocGet_assocPut_other {α : Type} (l : List (String × α)) (n m : String) (v : α)
    (hnm : m ≠ n) : assocGet (assocPut l n v) m = assocGet l m := by
  induction l with
  | nil => simp [assocGet, assocPut, Ne.symm hnm]
  | cons hd tl ih =>
    obtain ⟨k, w⟩ := hd
    by_cases h : k = n
    · subst h
      simp [assocGet, assocPut, Ne.symm hnm, hnm]
    · by_cases h2 : k = m
      · simp [assocGet, assocPut, h, h2, hnm]
      · simp [assocGet, assocPut, h, h2, ih]

theorem assocPut_keys_mem {α : Type} (l : List (String × α)) (n m : String) (v : α) :
    m ∈ (assocPut l n v).map Prod.fst ↔ m ∈ l.map Prod.fst ∨ m = n := by
  induction l with
  | nil => simp [assocPut]
  | cons hd tl ih =>
    obtain ⟨k, w⟩ := hd
    by_cases h : k = n
    · subst h
      simp [assocPut]
      tauto
    · simp [assocPut, h, ih]
      tauto

theorem assocPut_keys_fresh {α : Type} (l : List (String × α)) (n : String) (v : α)
    (h : ¬ n ∈ l.map Prod.fst) :
    (assocPut l n v).map Prod.fst = l.map Prod.fst ++ [n] := by
  induction l with
  | nil => simp [assocPut]
  | cons hd tl ih =>
    obtain ⟨k, w⟩ := hd
    rw [List.map_cons] at h
    simp only [List.mem_cons, not_or] at h
    obtain ⟨hk, htl⟩ := h
    simp [assocPut, Ne.symm hk, ih htl]

theorem assocGet_isSome_iff_mem_keys {α : Type} (l : List (String × α)) (m : String) :
    (assocGet l m).isSome ↔ m ∈ l.map Prod.fst := by
  induction l with
  | nil => simp [assocGet]
  | cons hd tl ih =>
    obtain ⟨k, w⟩ := hd
    by_cases h : k = m
    · simp [assocGet, h]
    · simp [assocGet, h, ih, Ne.symm h]

theorem assocPut_keys {α : Type} (l : List (String × α)) (n : String) (v : α) :
    (assocPut l n v).map Prod.fst =
      if n ∈ l.map Prod.fst then l.map Prod.fst else l.map Prod.fst ++ [n] := by
  induction l with
  | nil => simp [assocPut]
  | cons hd tl ih =>
    obtain ⟨k, w⟩ := hd
    by_cases h : k = n
    · subst h
      simp [assocPut]
    · rw [List.map_cons, assocPut, if_neg h, List.map_cons, ih]
      by_cases h2 : n ∈ tl.map Prod.fst
      · simp [h2, Ne.symm h]
      · simp [h2, Ne.symm h]

theorem assocPut_keys_nodup {α : Type} {l : List (String × α)} {n : String} {v : α}
    (h : (l.map Prod.fst).Nodup) : ((assocPut l n v).map Prod.fst).Nodup := by
  rw [assocPut_keys]
  by_cases h2 : n ∈ l.map Prod.fst
  · simpa [h2]
  · simp [h2, List.nodup_append, h]

theorem runStep_ok_store {s : Store} {st : Step} {v : Value} {s2 : Store}
    (h : runStep s st = .ok (v, s2)) :
    ∃ raw, s2 = Store.put s st.name (entryOf raw v) := by
  unfold runStep at h
  split at h
  · exact absurd h (by simp)
  · split at h
    · exact absurd h (by simp)
    · split at h
      · exact absurd h (by simp)
      · simp only [Except.ok.injEq, Prod.mk.injEq] at h
        exact ⟨_, by rw [← h.1, ← h.2]⟩

theorem runStep_get_isSome {s : Store} {st : Step} {v : Value} {s2 : Store}
    (h : runStep s st = .ok (v, s2)) (k : String) :
    (Store.get s2 k).isSome ↔ ((Store.get s k).isSome ∨ k = st.name) := by
  obtain ⟨raw, rfl⟩ := runStep_ok_store h
  by_cases hk : k = st.name
  · simp [hk, Store.get, Store.put, assocGet_assocPut_self]
  · simp [Store.get, Store.put, assocGet_assocPut_other _ _ _ _ hk, hk]

theorem runStep_get_other {s : Store} {st : Step} {v : Value} {s2 : Store}
    (h : runStep s st = .ok (v, s2)) (k : String) (hk : k ≠ st.name) :
    Store.get s2 k = Store.get s k := by
  obtain ⟨raw, rfl⟩ := runStep_ok_store h
  simp [Store.get, Store.put, assocGet_assocPut_other _ _ _ _ hk]

theorem runStep_keys_nodup {s : Store} {st : Step} {v : Value} {s2 : Store}
    (h : runStep s st = .ok (v, s2)) (hn : (s.map Prod.fst).Nodup) :
    (s2.map Prod.fst).Nodup := by
  obtain ⟨raw, rfl⟩ := runStep_ok_store h
  exact assocPut_keys_nodup hn

theorem runLeading_get (pre : List Step) :
    ∀ s s1, runLeading s pre = some s1 →
      ∀ k, ((Store.get s1 k).isSome ↔ ((Store.get s k).isSome ∨ k ∈ pre.map Step.name))
        ∧ (¬ k ∈ pre.map Step.name → Store.get s1 k = Store.get s k) := by
  induction pre with
  | nil =>
    intro s s1 h k
    simp only [runLeading, Option.some.injEq] at h
    subst h
    simp
  | cons st rest ih =>
    intro s s1 h k
    unfold runLeading at h
    split at h
    case h_2 => exact absurd h (by simp)
    case h_1 v s2 hst =>
      have ihk := ih s2 s1 h k
      have hstep := runStep_get_isSome hst k
      constructor
      · rw [ihk.1, hstep]
        simp only [List.map_cons, List.mem_cons]
        tauto
      · intro hmem
        simp only [List.map_cons, List.mem_cons, not_or] at hmem
        rw [ihk.2 hmem.2, runStep_get_other hst k hmem.1]

theorem runLeading_keys_nodup (pre : List Step) :
    ∀ s s1, runLeading s pre = some s1 → (s.map Prod.fst).Nodup →
      (s1.map Prod.fst).Nodup := by
  induction pre with
  | nil =>
    intro s s1 h hn
    simp only [runLeading, Option.some.injEq] at h
    subst h
    exact hn
  | cons st rest ih =>
    intro s s1 h hn
    unfold runLeading at h
    split at h
    case h_2 => exact absurd h (by simp)
    case h_1 v s2 hst => exact ih s2 s1 h (runStep_keys_nodup hst hn)

theorem runPipeline_cons_ne {s : Store} {st : Step} {rest : List Step} (hne : rest ≠ [])
    {v : Value} {s2 : Store} (hst : runStep s st = .ok (v, s2)) :
    runPipeline s (st :: rest) = runPipeline s2 rest := by
  cases rest with
  | nil => exact absurd rfl hne
  | cons a l => simp [runPipeline, hst]

theorem runPipeline_cons_err {s : Store} {st : Step} {rest : List Step} {e : PipeErr}
    (hst : runStep s st = .error e) :
    runPipeline s (st :: rest) = (s, .error e) := by
  cases rest <;> simp [runPipeline, hst]

theorem runPipeline_fail_after (pre : List Step) :
    ∀ {s s1 : Store} {fstep : Step} {e : PipeErr} (post : List Step),
      runLeading s pre = some s1 → runStep s1 fstep = .error e →
      runPipeline s (pre ++ fstep :: post) = (s1, .error e) := by
  induction pre with
  | nil =>
    intro s s1 fstep e post h hf
    simp only [runLeading, Option.some.injEq] at h
    subst h
    simpa using runPipeline_cons_err hf
  | cons st rest ih =>
    intro s s1 fstep e post h hf
    unfold runLeading at h
    split at h
    case h_2 => exact absurd h (by simp)
    case h_1 v s2 hst =>
      rw [List.cons_append, runPipeline_cons_ne (by simp) hst]
      exact ih post h hf

theorem runPipeline_ok_decomp (steps : List Step) :
    ∀ {s s1 : Store} {v : Value}, runPipeline s steps = (s1, .ok v) →
      ∃ pre last s2, steps = pre ++ [last] ∧ runLeading s pre = some s2 ∧
        runStep s2 last = .ok (v, s1) := by
  induction steps with
  | nil =>
    intro s s1 v h
    simp [runPipeline] at h
  | cons st rest ih =>
    intro s s1 v h
    unfold runPipeline at h
    split at h
    case h_1 e hst => simp at h
    case h_2 w s2 hst =>
      cases rest with
      | nil =>
        simp only [Prod.mk.injEq, Except.ok.injEq] at h
        exact ⟨[], st, s, by simp, by simp [runLeading],
          by rw [hst, h.2, h.1]⟩
      | cons b l =>
        obtain ⟨pre, last, s3, hdec, hlead, hlast⟩ := ih h
        exact ⟨st :: pre, last, s3, by simp [hdec],
          by simp [runLeading, hst, hlead], hlast⟩

theorem runPipeline_names (steps : List Step) {s s1 : Store} {v : Value}
    (h : runPipeline s steps = (s1, .ok v)) :
    ∀ st ∈ steps, (Store.get s1 st.name).isSome := by
  obtain ⟨pre, last, s2, hdec, hlead, hlast⟩ := runPipeline_ok_decomp steps h
  intro st hmem
  rw [hdec] at hmem
  rw [List.mem_append, List.mem_singleton] at hmem
  rcases hmem with hmem | hmem
  · rw [runStep_get_isSome hlast]
    left
    rw [(runLeading_get pre s s2 hlead st.name).1]
    right
    exact List.mem_map_of_mem Step.name hmem
  · subst hmem
    rw [runStep_get_isSome hlast]
    right
    rfl

theorem runPipeline_keys_nodup (steps : List Step) {s s1 : Store} {v : Value}
    (h : runPipeline s steps = (s1, .ok v)) (hn : (s.map Prod.fst).Nodup) :
    (s1.map Prod.fst).Nodup := by
  obtain ⟨pre, last, s2, hdec, hlead, hlast⟩ := runPipeline_ok_decomp steps h
  exact runStep_keys_nodup hlast (runLeading_keys_nodup pre s s2 hlead hn)

theorem resolvePart_error {store : Store} {b : Bindings} {p : TemplatePart} {e : PipeErr}
    (h : resolvePart store b p = .error e) : e = .resolve .missingBinding := by
  cases p with
  | lit t => simp [resolvePart] at h
  | ref n =>
    cases hb : assocGet b n with
    | some v => simp [resolvePart, hb] at h
    | none =>
      simp only [resolvePart, hb, Except.error.injEq] at h
      exact h.symm
  | qref sn f =>
    cases hs : Store.get store sn with
    | none =>
      simp only [resolvePart, hs, Except.error.injEq] at h
      exact h.symm
    | some entry =>
      cases hf : assocGet entry f with
      | some v => simp [resolvePart, hs, hf] at h
      | none =>
        simp only [resolvePart, hs, hf, Except.error.injEq] at h
        exact h.symm

theorem render_error {store : Store} {b : Bindings} {tpl : Template} {e : PipeErr}
    (h : render store b tpl = .error e) : e = .resolve .missingBinding := by
  induction tpl with
  | nil => simp [render] at h
  | cons p rest ih =>
    unfold render at h
    split at h
    case h_1 e2 hp =>
      simp only [Except.error.injEq] at h
      subst h
      exact resolvePart_error hp
    case h_2 s hp =>
      split at h
      case h_1 e2 hr =>
        simp only [Except.error.injEq] at h
        subst h
        exact ih hr
      case h_2 => simp at h

theorem render_cons (store : Store) (b : Bindings) (p : TemplatePart) (rest : Template) :
    render store b (p :: rest) =
      match resolvePart store b p with
      | .error e => .error e
      | .ok s =>
        match render store b rest with
        | .error e => .error e
        | .ok t => .ok (s ++ t) := rfl

theorem render_ok_iff {store : Store} {b : Bindings} {tpl : Template} :
    okB (render store b tpl) = true ↔ ∀ p ∈ tpl, okB (resolvePart store b p) = true := by
  induction tpl with
  | nil => simp [render, okB]
  | cons p rest ih =>
    rw [render_cons]
    cases hp : resolvePart store b p with
    | error e =>
      simp only [okB, List.mem_cons]
      constructor
      · intro h
        exact absurd h (by simp)
      · intro h
        have h2 := h p (Or.inl rfl)
        rw [hp] at h2
        simp [okB] at h2
    | ok s =>
      cases hr : render store b rest with
      | error e =>
        rw [hr] at ih
        simp only [okB, List.mem_cons]
        constructor
        · intro h
          exact absurd h (by simp)
        · intro h
          have h2 := ih.mpr (fun q hq => h q (Or.inr hq))
          simp [okB] at h2
      | ok t =>
        rw [hr] at ih
        constructor
        · intro _ q hq
          rcases List.mem_cons.mp hq with rfl | hq2
          · rw [hp]
            rfl
          · exact (ih.mp rfl) q hq2
        · intro _
          rfl

theorem runStep_render_err {s : Store} {st : Step} {e : PipeErr}
    (h : render s st.bindings st.template = .error e) : runStep s st = .error e := by
  unfold runStep
  rw [h]

/-- C3: a qualified `step.<field>` template reference resolves by looking up
the step name in the Memory Store and then the field inside that entry, and
does not depend on the step-local bindings; an unqualified reference
resolves against the step-local static bindings only and does not depend on
the Memory Store. -/
theorem template_qualified_vs_unqualified_resolution :
    (∀ (store : Store) (b : Bindings) (sn f v : String),
        resolvePart store b (.qref sn f) = .ok v ↔
          ∃ entry, Store.get store sn = some entry ∧ assocGet entry f = some v)
    ∧ (∀ (store : Store) (b b2 : Bindings) (sn f : String),
        resolvePart store b (.qref sn f) = resolvePart store b2 (.qref sn f))
    ∧ (∀ (store : Store) (b : Bindings) (n v : String),
        resolvePart store b (.ref n) = .ok v ↔ assocGet b n = some v)
    ∧ (∀ (store store2 : Store) (b : Bindings) (n : String),
        resolvePart store b (.ref n) = resolvePart store2 b (.ref n)) := by
  refine ⟨?_, fun _ _ _ _ _ => rfl, ?_, fun _ _ _ _ => rfl⟩
  · intro store b sn f v
    cases hs : Store.get store sn with
    | none => simp [resolvePart, hs]
    | some entry =>
      cases hf : assocGet entry f with
      | none => simp [resolvePart, hs, hf]
      | some w => simp [resolvePart, hs, hf, eq_comm]
  · intro store b n v
    cases hb : assocGet b n with
    | none => simp [resolvePart, hb]
    | some w => simp [resolvePart, hb, eq_comm]

/-- C3 witness: the qualified-reference characterisation instantiated on the
example pipeline's final store. -/
theorem template_qualified_vs_unqualified_resolution_witness :
    resolvePart exFinalStore [] (.qref "step1" "output") = .ok "alpha beta gamma" ↔
      ∃ entry, Store.get exFinalStore "step1" = some entry ∧
        assocGet entry "output" = some "alpha beta gamma" :=
  template_qualified_vs_unqualified_resolution.1 exFinalStore [] "step1" "output"
    "alpha beta gamma"

/-- C4: a template reference that resolves to no binding makes prompt
resolution fail with `ResolveError{MissingBinding}` — rendering succeeds
exactly when every part resolves, so a missing reference is never silently
substituted with an empty string, and the only rendering error is
`MissingBinding` — and a pipeline whose step fails to resolve executes zero
steps beyond the failing one. -/
theorem missing_reference_fails_never_empty :
    (∀ (store : Store) (b : Bindings) (tpl : Template) (e : PipeErr),
        render store b tpl = .error e → e = .resolve .missingBinding)
    ∧ (∀ (store : Store) (b : Bindings) (tpl : Template),
        okB (render store b tpl) = true ↔ ∀ p ∈ tpl, okB (resolvePart store b p) = true)
    ∧ (∀ (s0 s1 : Store) (pre : List Step) (fstep : Step) (post : List Step),
        runLeading s0 pre = some s1 →
        render s1 fstep.bindings fstep.template = .error (.resolve .missingBinding) →
        runPipeline s0 (pre ++ fstep :: post) = (s1, .error (.resolve .missingBinding))) := by
  refine ⟨fun _ _ _ _ h => render_error h, fun _ _ _ => render_ok_iff, ?_⟩
  intro s0 s1 pre fstep post hpre hrender
  exact runPipeline_fail_after pre post hpre (runStep_render_err hrender)

/-- C4 witness: a three-step pipeline whose second step references the
undefined name `missing` stops right there with `MissingBinding`, keeping
only step 1's entry. -/
theorem missing_reference_fails_never_empty_witness :
    runLeading ([] : Store) [exStep1] = some [("step1", [("output", "alpha beta gamma")])]
    ∧ runPipeline [] ([exStep1] ++ badRefStep :: [exStep3]) =
        ([("step1", [("output", "alpha beta gamma")])], .error (.resolve .missingBinding)) :=
  ⟨by decide,
   missing_reference_fails_never_empty.2.2 [] [("step1", [("output", "alpha beta gamma")])]
     [exStep1] badRefStep [exStep3] (by decide) (by decide)⟩

/-- C5: constructing a pattern-capture decoder from a pattern with zero
capture groups fails at construction time with
`DecodeError{InvalidPattern}`; construction succeeds otherwise, and decoding
never raises `InvalidPattern`. -/
theorem regexDecoder_zeroGroups_constructionFailure :
    (∀ p : Pattern, countGroups p = 0 → NewRegExDecoder p = .error .invalidPattern)
    ∧ (∀ p : Pattern, countGroups p ≠ 0 → NewRegExDecoder p = .ok (.regex p))
    ∧ (∀ (d : Decoder) (raw : String), decode d raw ≠ .error .invalidPattern) := by
  refine ⟨?_, ?_, ?_⟩
  · intro p h
    simp [NewRegExDecoder, h]
  · intro p h
    simp [NewRegExDecoder, h]
  · intro d raw
    cases d with
    | dflt => simp [decode]
    | json fields =>
      cases hpj : parseJsonRecord raw with
      | none => simp [decode, hpj]
      | some r =>
        cases hb : bindFields r fields with
        | some kvs => simp [decode, hpj, hb]
        | none => simp [decode, hpj, hb]
    | regex p =>
      cases hf : findFirst p raw.data with
      | some caps => simp [decode, hf]
      | none => simp [decode, hf]

/-- C5 witness: a one-atom pattern with no capture group is rejected by the
constructor with `InvalidPattern`. -/
theorem regexDecoder_zeroGroups_constructionFailure_witness :
    countGroups [⟨false, .one isWordChar⟩] = 0
    ∧ NewRegExDecoder [⟨false, .one isWordChar⟩] = .error .invalidPattern :=
  ⟨by rfl, regexDecoder_zeroGroups_constructionFailure.1 [⟨false, .one isWordChar⟩] (by rfl)⟩

/-- C1: when the steps of a run decompose into a successful leading segment
followed by a failing step, the run aborts immediately and returns that
step's error; the result does not depend on the steps after the failing one
(none of them executes), and the shared Memory Store holds exactly the
entries present initially plus those written by the completed leading steps
— no entry for the failing step or any later step, and every entry outside
the leading steps' names is untouched. -/
theorem pipeline_firstFailure_aborts_noRollback
    (s0 s1 : Store) (pre : List Step) (fstep : Step) (post : List Step) (e : PipeErr)
    (hpre : runLeading s0 pre = some s1)
    (hfail : runStep s1 fstep = .error e) :
    Run (pre ++ fstep :: post) s0 none = (s1, .error e)
    ∧ (∀ post2 : List Step, runPipeline s0 (pre ++ fstep :: post2) = (s1, .error e))
    ∧ (∀ k, (Store.get s1 k).isSome ↔ ((Store.get s0 k).isSome ∨ k ∈ pre.map Step.name))
    ∧ (∀ k, ¬ k ∈ pre.map Step.name → Store.get s1 k = Store.get s0 k) := by
  refine ⟨?_, ?_, ?_, ?_⟩
  · exact runPipeline_fail_after pre post hpre hfail
  · intro post2
    exact runPipeline_fail_after pre post2 hpre hfail
  · intro k
    exact (runLeading_get pre s0 s1 hpre k).1
  · intro k hk
    exact (runLeading_get pre s0 s1 hpre k).2 hk

/-- C1 witness: the example pipeline with its second step replaced by a step
whose backend fails — the run returns that backend error tagged with the
step name and the store keeps exactly step 1's entry. -/
theorem pipeline_firstFailure_aborts_noRollback_witness :
    runLeading ([] : Store) [exStep1] = some [("step1", [("output", "alpha beta gamma")])]
    ∧ runStep [("step1", [("output", "alpha beta gamma")])] failLlmStep =
        .error (.backend "boom" "backend down")
    ∧ Run [exStep1, failLlmStep, exStep3] [] none =
        ([("step1", [("output", "alpha beta gamma")])], .error (.backend "boom" "backend down")) :=
  ⟨by decide, by decide,
   (pipeline_firstFailure_aborts_noRollback [] [("step1", [("output", "alpha beta gamma")])]
     [exStep1] failLlmStep [exStep3] (.backend "boom" "backend down")
     (by decide) (by decide)).1⟩

/-- C2: when every step of a run succeeds, the returned value is the decoded
output of the last step alone (the steps decompose as a successful leading
segment plus a final step whose decoded value and store write are the run's
result), the Memory Store exposed by `All()` holds an entry for every
executed step, and key uniqueness is preserved, so it is exactly one entry
per executed step. -/
theorem pipeline_success_lastOutput_allEntries
    (s0 s1 : Store) (steps : List Step) (v : Value)
    (h : Run steps s0 none = (s1, .ok v)) :
    (∃ pre last s2, steps = pre ++ [last] ∧ runLeading s0 pre = some s2 ∧
        runStep s2 last = .ok (v, s1))
    ∧ (∀ st ∈ steps, (Store.get (Store.all s1) st.name).isSome)
    ∧ ((s0.map Prod.fst).Nodup → (((Store.all s1).map Prod.fst).Nodup)) :=
  ⟨runPipeline_ok_decomp steps h, runPipeline_names steps h,
   fun hn => runPipeline_keys_nodup steps h hn⟩

/-- C2 witness: the example three-step pipeline returns step 3's decoded
capture sequence only, while the Memory Store dump carries exactly the
entries `step1`, `step2`, `step3`. -/
theorem pipeline_success_lastOutput_allEntries_witness :
    Run exSteps [] none = (exFinalStore, .ok (.strs ["hello", "world", "foo bar"]))
    ∧ (∀ st ∈ exSteps, (Store.get (Store.all exFinalStore) st.name).isSome)
    ∧ (Store.all exFinalStore).map Prod.fst = ["step1", "step2", "step3"] :=
  ⟨by decide,
   (pipeline_success_lastOutput_allEntries [] exFinalStore exSteps
     (.strs ["hello", "world", "foo bar"]) (by decide)).2.1,
   by decide⟩

theorem findFirst_first_match {p : Pattern} {cs : List Char} {caps : List String}
    (h : findFirst p cs = some caps) :
    ∃ i, matchItems p (cs.drop i) = some caps ∧ ∀ j < i, matchItems p (cs.drop j) = none := by
  induction cs with
  | nil =>
    exact ⟨0, h, by omega⟩
  | cons c cs2 ih =>
    unfold findFirst at h
    split at h
    case h_1 caps2 hm =>
      refine ⟨0, ?_, by omega⟩
      rw [List.drop_zero, hm]
      exact h
    case h_2 hm =>
      obtain ⟨i, hi, hj⟩ := ih h
      refine ⟨i + 1, hi, ?_⟩
      intro j hlt
      cases j with
      | zero => exact hm
      | succ j2 => exact hj j2 (by omega)

/-- C6: pattern-capture decoding of `"hello world foo bar"` with the
word-word-rest pattern yields the ordered captures
`["hello", "world", "foo bar"]`, decoding `"hi"` fails with
`DecodeError{NoMatch}`, and every successful pattern-capture decode returns
the captures of the first match found in the text only: the match position
is one where the pattern matches and every earlier position does not. -/
theorem regexDecoder_firstMatch_captures :
    decode (.regex wordsRestPattern) "hello world foo bar" =
      .ok (.strs ["hello", "world", "foo bar"])
    ∧ decode (.regex wordsRestPattern) "hi" = .error .noMatch
    ∧ (∀ (p : Pattern) (text : String) (caps : List String),
        decode (.regex p) text = .ok (.strs caps) →
        ∃ i, matchItems p (text.data.drop i) = some caps
          ∧ ∀ j < i, matchItems p (text.data.drop j) = none) := by
  refine ⟨by decide, by decide, ?_⟩
  intro p text caps h
  cases hf : findFirst p text.data with
  | none => simp [decode, hf] at h
  | some caps2 =>
    simp only [decode, hf, Except.ok.injEq, Value.strs.injEq] at h
    subst h
    exact findFirst_first_match hf

/-- C6 witness: the first-match property instantiated on a text whose first
match starts at its very first character. -/
theorem regexDecoder_firstMatch_captures_witness :
    ∃ i, matchItems wordsRestPattern (("x hello world foo bar").data.drop i) =
        some ["x", "hello", "world foo bar"]
      ∧ ∀ j < i, matchItems wordsRestPattern (("x hello world foo bar").data.drop j) = none :=
  regexDecoder_firstMatch_captures.2.2 wordsRestPattern "x hello world foo bar"
    ["x", "hello", "world foo bar"] (by decide)

theorem bindFields_mem {r : List (String × String)} :
    ∀ {fields : List String} {kvs : List (String × String)},
      bindFields r fields = some kvs →
      ∀ f v, (f, v) ∈ kvs → f ∈ fields ∧ assocGet r f = some v := by
  intro fields
  induction fields with
  | nil =>
    intro kvs h f v hm
    simp only [bindFields, Option.some.injEq] at h
    subst h
    simp at hm
  | cons g gs ih =>
    intro kvs h f v hm
    unfold bindFields at h
    split at h
    case h_2 => exact absurd h (by simp)
    case h_1 w hw =>
      split at h
      case h_2 => exact absurd h (by simp)
      case h_1 kvs2 hk =>
        simp only [Option.some.injEq] at h
        subst h
        rcases List.mem_cons.mp hm with hm1 | hm2
        · have hf : f = g := congrArg Prod.fst hm1
          have hv : v = w := congrArg Prod.snd hm1
          refine ⟨hf ▸ List.mem_cons_self g gs, ?_⟩
          rw [hf, hw, hv]
        · obtain ⟨hf1, hf2⟩ := ih hk f v hm2
          exact ⟨List.mem_cons_of_mem g hf1, hf2⟩

/-- C7: structured decoding of the record text with fields `First` and
`Second` into the two-field destination yields `First="a"`, `Second="b"`;
decoding `not json` fails with `DecodeError{Malformed}`; field matching is
case-sensitive (a lower-case `first` does not satisfy a `First` destination
and fails `SchemaMismatch`); and in general every binding produced for the
destination comes from an exact-name lookup in the parsed record. -/
theorem jsonDecoder_roundTrip_caseSensitive :
    decode (.json ["First", "Second"]) "\x7b\"First\":\"a\",\"Second\":\"b\"\x7d" =
      .ok (.record [("First", "a"), ("Second", "b")])
    ∧ decode (.json ["First", "Second"]) "not json" = .error .malformed
    ∧ decode (.json ["First"]) "\x7b\"first\":\"a\"\x7d" = .error .schemaMismatch
    ∧ (∀ (r : List (String × String)) (fields : List String) (kvs : List (String × String)),
        bindFields r fields = some kvs →
        ∀ f v, (f, v) ∈ kvs → f ∈ fields ∧ assocGet r f = some v) :=
  ⟨by decide, by decide, by decide, fun _ _ _ h => bindFields_mem h⟩

/-- C7 witness: the exact-name-binding property instantiated on a one-field
record. -/
theorem jsonDecoder_roundTrip_caseSensitive_witness :
    "First" ∈ ["First"] ∧ assocGet [("First", "a")] "First" = some "a" :=
  jsonDecoder_roundTrip_caseSensitive.2.2.2 [("First", "a")] ["First"] [("First", "a")]
    (by decide) "First" "a" (by decide)

/-- C8: for every OpenAI backend instance (any cache, observer, and
endpoint configuration), `Generate` on a nil thread returns a nil error
immediately, with the thread untouched and an empty effect trace — no cache
lookup, no observer call, no model invocation, no cache write. -/
theorem openai_generate_nilThread_noop (o : OpenAIModel) :
    Generate o none = (.ok (), none, []) := rfl

theorem extract_foldl (c : Cache) (results : List SearchResult) :
    ∀ acc : List String,
      results.foldl
        (fun acc r =>
          if c.scoreThreshold < r.score then
            match assocGet r.metadata cacheAnswerMetadataKey with
            | some ans => acc ++ [ans]
            | none => acc
          else acc) acc
      = acc ++ results.filterMap
          (fun r => if c.scoreThreshold < r.score
                    then assocGet r.metadata cacheAnswerMetadataKey else none) := by
  induction results with
  | nil =>
    intro acc
    simp
  | cons r rest ih =>
    intro acc
    rw [List.foldl_cons, List.filterMap_cons]
    by_cases hsc : c.scoreThreshold < r.score
    · cases hm : assocGet r.metadata cacheAnswerMetadataKey with
      | some ans => simp [hsc, hm, ih]
      | none => simp [hsc, hm, ih]
    · simp [hsc, ih]

theorem extractResults_eq (c : Cache) (results : List SearchResult) :
    extractResults c results =
      (results.filterMap
         (fun r => if c.scoreThreshold < r.score
                   then assocGet r.metadata cacheAnswerMetadataKey else none),
       decide (0 < (results.filterMap
         (fun r => if c.scoreThreshold < r.score
                   then assocGet r.metadata cacheAnswerMetadataKey else none)).length)) := by
  unfold extractResults
  rw [extract_foldl c results []]
  simp

theorem qualifier_none_iff (c : Cache) (r : SearchResult) :
    ((if c.scoreThreshold < r.score
      then assocGet r.metadata cacheAnswerMetadataKey else none) = none) ↔
      ¬ (c.scoreThreshold < r.score ∧
          (assocGet r.metadata cacheAnswerMetadataKey).isSome = true) := by
  by_cases hsc : c.scoreThreshold < r.score
  · cases ha : assocGet r.metadata cacheAnswerMetadataKey with
    | some ans => simp [hsc, ha]
    | none => simp [hsc, ha]
  · simp [hsc]

/-- C9: when the embedder and the index both succeed, `Cache.Get` returns
`ErrCacheMiss` exactly when no search result both scores strictly above the
configured threshold and carries the `cache-answer` metadata key; results
failing either condition are skipped rather than causing an error, and on a
hit the answers are exactly those of the qualifying results in order,
paired with the query embedding. -/
theorem cache_get_cacheMiss_iff_noQualifyingResult
    (c : Cache) (query : String) (embedding : List ℚ) (results : List SearchResult)
    (he : c.embed query = .ok embedding)
    (hs : c.search embedding c.topK = .ok results) :
    (Cache.Get c query = .error .cacheMiss ↔
      ∀ r ∈ results, ¬ (c.scoreThreshold < r.score ∧
          (assocGet r.metadata cacheAnswerMetadataKey).isSome = true))
    ∧ (∀ res, Cache.Get c query = .ok res →
        res = ⟨results.filterMap
          (fun r => if c.scoreThreshold < r.score
                    then assocGet r.metadata cacheAnswerMetadataKey else none),
          embedding⟩) := by
  have hget : Cache.Get c query =
      (if (extractResults c results).2
       then .ok ⟨(extractResults c results).1, embedding⟩
       else .error .cacheMiss) := by
    simp only [Cache.Get, he, hs]
  rw [extractResults_eq] at hget
  constructor
  · rw [hget]
    by_cases hlen :
        0 < (results.filterMap
          (fun r => if c.scoreThreshold < r.score
                    then assocGet r.metadata cacheAnswerMetadataKey else none)).length
    · simp only [hlen, decide_True, if_true]
      constructor
      · intro h
        exact absurd h (by simp)
      · intro hall
        exfalso
        have hnil := List.filterMap_eq_nil_iff.mpr
          (fun r hr => (qualifier_none_iff c r).mpr (hall r hr))
        rw [hnil] at hlen
        simp at hlen
    · simp only [hlen, decide_False, if_false]
      constructor
      · intro _ r hr
        have hnil : results.filterMap
            (fun r => if c.scoreThreshold < r.score
                      then assocGet r.metadata cacheAnswerMetadataKey else none) = [] :=
          List.length_eq_zero.mp (by omega)
        exact (qualifier_none_iff c r).mp (List.filterMap_eq_nil_iff.mp hnil r hr)
      · intro _
        rfl
  · intro res hres
    rw [hget] at hres
    by_cases hlen :
        0 < (results.filterMap
          (fun r => if c.scoreThreshold < r.score
                    then assocGet r.metadata cacheAnswerMetadataKey else none)).length
    · simp only [hlen, decide_True, if_true, Except.ok.injEq] at hres
      exact hres.symm
    · simp [hlen] at hres

/-- C9 witness: a result below the threshold that carries the answer key
and a result above it that lacks the key both fail to qualify, so the
lookup misses. -/
theorem cache_get_cacheMiss_iff_noQualifyingResult_witness :
    Cache.Get exCache "q" = .error .cacheMiss ↔
      ∀ r ∈ exResults, ¬ ((9 : ℚ)/10 < r.score ∧
          (assocGet r.metadata cacheAnswerMetadataKey).isSome = true) :=
  (cache_get_cacheMiss_iff_noQualifyingResult exCache "q" [1] exResults rfl rfl).1

theorem validate_ok_source {t : TextLoader} {fs : FS} {m2 : List (String × String)}
    (h : t.validate fs = .ok m2) :
    assocGet m2 SourceMetadataKey = some t.filename := by
  unfold TextLoader.validate at h
  split at h
  case h_1 => exact absurd h (by simp)
  case h_2 m hm =>
    split at h
    case h_1 => exact absurd h (by simp)
    case h_2 isDir hstat =>
      split at h
      · exact absurd h (by simp)
      · simp only [Except.ok.injEq] at h
        subst h
        exact assocGet_assocPut_self m SourceMetadataKey t.filename

/-- C10: `TextLoader.Load` fails (returning no documents) whenever the
caller-supplied metadata already carries the reserved `source` key; and
whenever it succeeds — the key being absent or the metadata nil — every
returned document's metadata binds `source` to the loader's filename
(assuming the optional splitter collaborator, when configured, gives each
produced chunk the metadata of one of its input documents). -/
theorem textLoader_reservedSourceKey (fs : FS) (t : TextLoader) :
    ((∃ m, t.metadata = some m ∧ (assocGet m SourceMetadataKey).isSome = true) →
      ∃ e, t.Load fs = .error e)
    ∧ ((∀ sp, t.textSplitter = some sp →
          ∀ ds d2, d2 ∈ sp ds → ∃ d ∈ ds, d2.metadata = d.metadata) →
        ∀ docs, t.Load fs = .ok docs →
          ∀ d ∈ docs, assocGet d.metadata SourceMetadataKey = some t.filename) := by
  constructor
  · rintro ⟨m, hm, hkey⟩
    refine ⟨.reservedKey, ?_⟩
    unfold TextLoader.Load TextLoader.validate
    simp [hm, hkey]
  · intro hsp docs hload d hd
    unfold TextLoader.Load at hload
    split at hload
    case h_1 => exact absurd hload (by simp)
    case h_2 m2 hval =>
      have hsource := validate_ok_source hval
      split at hload
      case h_1 => exact absurd hload (by simp)
      case h_2 text hread =>
        split at hload
        case h_2 hnone =>
          simp only [Except.ok.injEq] at hload
          subst hload
          rcases List.mem_singleton.mp hd with rfl
          exact hsource
        case h_1 sp hspl =>
          simp only [Except.ok.injEq] at hload
          subst hload
          obtain ⟨d0, hd0, hmeta⟩ := hsp sp hspl [⟨text, m2⟩] d hd
          rcases List.mem_singleton.mp hd0 with rfl
          rw [hmeta]
          exact hsource

/-- C10 witness: a loader whose metadata carries `source` fails, and the
plain loader yields one document whose metadata binds `source` to the
filename. -/
theorem textLoader_reservedSourceKey_witness :
    (∃ e, exLoaderReserved.Load exFS = .error e)
    ∧ (∀ d ∈ [({content := "body",
                 metadata := [("source", "notes.txt")]} : Document)],
        assocGet d.metadata SourceMetadataKey = some "notes.txt") :=
  ⟨(textLoader_reservedSourceKey exFS exLoaderReserved).1
     ⟨[("source", "elsewhere")], rfl, by decide⟩,
   (textLoader_reservedSourceKey exFS exLoaderPlain).2
     (fun sp h => Option.noConfusion h)
     [{content := "body", metadata := [("source", "notes.txt")]}] rfl⟩

end LinGoPipe
